import Mathlib

/-!
Verification of the safe-execution core of `@ntangled/kit` (`src/safe.ts`).

The module exports `x` (execute) and `w` (wrap), which invoke a caller-supplied
callback inside a protected region and normalize the outcome into a two-slot
`[fault, value]` tuple, plus the `NullError` class substituted when the raised
value is the `null` sentinel.

We shallowly embed the JavaScript values the code manipulates, the callback
model (synchronous return, synchronous raise, or returning a pending
computation that later resolves or rejects), and translate `x` and `w`
line by line from the source.
-/

namespace NtangledKit

/-- JavaScript runtime values as manipulated by `safe.ts`.

`pending resolves settled` models a well-behaved pending computation
(a thenable): a truthy object exposing a callable `then`; `resolves = true`
means it eventually resolves with `settled`, `resolves = false` means it
eventually rejects with `settled`.  `nullError` is an instance of the
`NullError` class.  `obj id` is any other non-null object (custom fault
objects, parse results, ...), opaque except for its identity `id`.
`tuple fault value` is the two-element array `[fault, value]` the library
produces (an array is itself a value: truthy, with no callable `then`). -/
inductive JSVal where
  | vNull
  | vUndefined
  | vBool (b : Bool)
  | vNum (n : Int)
  | vStr (s : String)
  | nullError
  | obj (id : Nat)
  | tuple (fault value : JSVal)
  | pending (resolves : Bool) (settled : JSVal)
deriving DecidableEq, Repr

/-- JavaScript truthiness: `null`, `undefined`, `false`, `0` and the empty
string are falsy; every object (including arrays and promises) and every
other primitive is truthy. -/
def truthy : JSVal → Bool
  | .vNull => false
  | .vUndefined => false
  | .vBool b => b
  | .vNum n => decide (n ≠ 0)
  | .vStr s => decide (s ≠ "")
  | .nullError => true
  | .obj _ => true
  | .tuple _ _ => true
  | .pending _ _ => true

/-- The check that `result.then` is a function: among the modelled values,
exactly the pending computations expose a callable `then` property
(primitives, error instances, plain objects and the produced tuples do
not). -/
def hasCallableThen : JSVal → Bool
  | .pending _ _ => true
  | _ => false

/-- The message the `NullError` constructor installs by calling the base
constructor with the string "null". -/
def errMessage : JSVal → Option String
  | .nullError => some "null"
  | _ => none

/-- The name the `NullError` constructor installs: the field `this.name`
is set to the string "NullError". -/
def errName : JSVal → Option String
  | .nullError => some "NullError"
  | _ => none

/-- The outcome of one synchronous invocation of a callback: it either
returns a value (possibly a pending computation) or raises a value. -/
inductive CallOutcome where
  | ret (v : JSVal)
  | thr (e : JSVal)
deriving DecidableEq, Repr

/-- A callback of arbitrary arity: given its argument list, its invocation
either returns or raises. -/
def Callback : Type := List JSVal → CallOutcome

/-- The fault normalization `safe.ts` performs on every failure path:
`if (error === null) return [new NullError(), null]; return [error, null]`
— the `null` sentinel is replaced by a `NullError` instance, every other
raised value passes through unchanged. -/
def normalizeFault (error : JSVal) : JSVal :=
  if error = .vNull then .nullError else error

/-- The continuation attachment
`result.then((value) => [null, value]).catch((error) => ...)` from
`safe.ts`, applied to a pending `result`: it yields a pending computation
that always resolves — to `[null, value]` if `result` resolved with
`value`, and to `[normalized error, null]` if `result` rejected with
`error`.  (The code only reaches this expression when the guard
that `result` is truthy with a callable `then` held, so the argument is a
pending computation.) -/
def thenCatch : JSVal → JSVal
  | .pending true value => .pending true (.tuple .vNull value)
  | .pending false error => .pending true (.tuple (normalizeFault error) .vNull)
  | r => r

/-- `x` (execute) from `src/safe.ts`: invoke the callback on the given
parameters inside `try`; if the invocation raises, normalize the fault and
return `[fault, null]`; if it returns a truthy value with a callable
`then`, attach the `.then(...).catch(...)` continuations; otherwise
return `[null, result]`. -/
def x (callback : Callback) (params : List JSVal) : JSVal :=
  match callback params with
  | .ret result =>
    if truthy result && hasCallableThen result then
      thenCatch result
    else
      .tuple .vNull result
  | .thr error => .tuple (normalizeFault error) .vNull

/-- `w` (wrap) from `src/safe.ts`: returns a new callable whose body is the
same protected invocation as `x`, run on the closed-over callback at every
call. -/
def w (callback : Callback) : List JSVal → JSVal :=
  fun params =>
    match callback params with
    | .ret result =>
      if truthy result && hasCallableThen result then
        thenCatch result
      else
        .tuple .vNull result
    | .thr error => .tuple (normalizeFault error) .vNull

/-- A wrapped callable viewed again as a callback (e.g. to pass to `w` a
second time): every path of the body of `w` returns, so its invocation always
takes the `ret` branch. -/
def asCallback (g : List JSVal → JSVal) : Callback :=
  fun params => .ret (g params)

/-! Reduction lemmas for the two branches of the protected region. -/

/-- When the callback invocation returns `r`, `x` reduces to the
pending-detection conditional on `r`. -/
theorem x_ret (f : Callback) (ps : List JSVal) (r : JSVal)
    (h : f ps = CallOutcome.ret r) :
    x f ps = if truthy r && hasCallableThen r then thenCatch r
             else JSVal.tuple JSVal.vNull r := by
  unfold x; rw [h]

/-- When the callback invocation raises `e`, `x` reduces to the normalized
synchronous failure tuple. -/
theorem x_thr (f : Callback) (ps : List JSVal) (e : JSVal)
    (h : f ps = CallOutcome.thr e) :
    x f ps = JSVal.tuple (normalizeFault e) JSVal.vNull := by
  unfold x; rw [h]

/-- Only pending computations pass the callable-`then` check. -/
theorem hasCallableThen_eq_true {r : JSVal} (h : hasCallableThen r = true) :
    ∃ ok s, r = JSVal.pending ok s := by
  cases r <;> first
    | exact ⟨_, _, rfl⟩
    | simp [hasCallableThen] at h

/-- Fault normalization never yields the null sentinel. -/
theorem normalizeFault_ne_null (e : JSVal) :
    normalizeFault e ≠ JSVal.vNull := by
  unfold normalizeFault
  split
  · simp
  · assumption

/-- Case analysis on the outcome of `x`: the result is an immediate tuple
or a resolving pending tuple, and in each tuple the fault slot is either
the null sentinel with the value slot holding the result, or a non-null
fault with a null value slot. -/
theorem x_cases (f : Callback) (ps : List JSVal) :
    (∃ v, x f ps = JSVal.tuple JSVal.vNull v) ∨
    (∃ e, e ≠ JSVal.vNull ∧ x f ps = JSVal.tuple e JSVal.vNull) ∨
    (∃ v, x f ps = JSVal.pending true (JSVal.tuple JSVal.vNull v)) ∨
    (∃ e, e ≠ JSVal.vNull ∧
      x f ps = JSVal.pending true (JSVal.tuple e JSVal.vNull)) := by
  cases hf : f ps with
  | thr e =>
    exact Or.inr (Or.inl ⟨normalizeFault e, normalizeFault_ne_null e,
      x_thr f ps e hf⟩)
  | ret r =>
    by_cases hT : (truthy r && hasCallableThen r) = true
    · rw [x_ret f ps r hf, if_pos hT]
      simp only [Bool.and_eq_true] at hT
      obtain ⟨ok, s, rfl⟩ := hasCallableThen_eq_true hT.2
      cases ok
      · exact Or.inr (Or.inr (Or.inr
          ⟨normalizeFault s, normalizeFault_ne_null s, rfl⟩))
      · exact Or.inr (Or.inr (Or.inl ⟨s, rfl⟩))
    · rw [x_ret f ps r hf, if_neg hT]
      exact Or.inl ⟨r, rfl⟩

/-- C1: for every callback (synchronous or asynchronous, returning,
raising, resolving or rejecting, with any raised value including the null
sentinel), `x` (execute) yields either an immediate outcome tuple or a
pending computation that resolves — never rejects — to an outcome tuple;
in the total-function embedding no raise escapes `x` itself. -/
theorem execute_always_yields_outcome_tuple (f : Callback) (ps : List JSVal) :
    (∃ a b, x f ps = JSVal.tuple a b) ∨
    (∃ a b, x f ps = JSVal.pending true (JSVal.tuple a b)) := by
  rcases x_cases f ps with ⟨v, hv⟩ | ⟨e, _, he⟩ | ⟨v, hv⟩ | ⟨e, _, he⟩
  · exact Or.inl ⟨_, _, hv⟩
  · exact Or.inl ⟨_, _, he⟩
  · exact Or.inr ⟨_, _, hv⟩
  · exact Or.inr ⟨_, _, he⟩

/-- C2 counterexample: a callback whose result value is itself null makes
`x` produce the tuple with both slots null, refuting the claim that the
two slots are never both null for every callback. -/
theorem both_slots_null_cex :
    x (fun _ => CallOutcome.ret JSVal.vNull) [] =
      JSVal.tuple JSVal.vNull JSVal.vNull ∧
    ¬ ∀ (f : Callback) (ps : List JSVal) (a b : JSVal),
        x f ps = JSVal.tuple a b →
        ¬(a = JSVal.vNull ∧ b = JSVal.vNull) := by
  refine ⟨rfl, fun h => ?_⟩
  exact h (fun _ => CallOutcome.ret JSVal.vNull) [] JSVal.vNull JSVal.vNull
    rfl ⟨rfl, rfl⟩

/-- C2 (amended): for every invocation of `x` (execute) or of a wrapped
callable, the resulting outcome tuple — immediate or resolved — has either
a null fault slot with the value slot holding the result of the callback
(which may itself be null), or a non-null fault slot with a null value
slot; the two slots are never both non-null. -/
theorem outcome_mutual_exclusivity (f : Callback) (ps : List JSVal) :
    ((∃ v, x f ps = JSVal.tuple JSVal.vNull v) ∨
     (∃ e, e ≠ JSVal.vNull ∧ x f ps = JSVal.tuple e JSVal.vNull) ∨
     (∃ v, x f ps = JSVal.pending true (JSVal.tuple JSVal.vNull v)) ∨
     (∃ e, e ≠ JSVal.vNull ∧
       x f ps = JSVal.pending true (JSVal.tuple e JSVal.vNull))) ∧
    ((∃ v, w f ps = JSVal.tuple JSVal.vNull v) ∨
     (∃ e, e ≠ JSVal.vNull ∧ w f ps = JSVal.tuple e JSVal.vNull) ∨
     (∃ v, w f ps = JSVal.pending true (JSVal.tuple JSVal.vNull v)) ∨
     (∃ e, e ≠ JSVal.vNull ∧
       w f ps = JSVal.pending true (JSVal.tuple e JSVal.vNull))) :=
  ⟨x_cases f ps, x_cases f ps⟩

/-- C3: a callback that raises (synchronously) or rejects (asynchronously)
exactly the null sentinel yields an outcome tuple whose fault slot is a
`NullError` instance carrying the message "null" (and name "NullError"),
with a null value slot. -/
theorem sentinel_normalization (f : Callback) (ps : List JSVal) :
    (f ps = CallOutcome.thr JSVal.vNull →
      x f ps = JSVal.tuple JSVal.nullError JSVal.vNull) ∧
    (f ps = CallOutcome.ret (JSVal.pending false JSVal.vNull) →
      x f ps = JSVal.pending true (JSVal.tuple JSVal.nullError JSVal.vNull)) ∧
    errMessage JSVal.nullError = some "null" ∧
    errName JSVal.nullError = some "NullError" := by
  refine ⟨fun h => ?_, fun h => ?_, rfl, rfl⟩
  · rw [x_thr f ps JSVal.vNull h]; rfl
  · rw [x_ret f ps (JSVal.pending false JSVal.vNull) h]; rfl

/-- C3 witness: throwing the null sentinel at a concrete callback. -/
theorem sentinel_normalization_witness :
    x (fun _ => CallOutcome.thr JSVal.vNull) [] =
      JSVal.tuple JSVal.nullError JSVal.vNull :=
  (sentinel_normalization (fun _ => CallOutcome.thr JSVal.vNull) []).1 rfl

/-- C4: a callback that raises or rejects with a non-null value `e` yields
an outcome tuple whose fault slot is `e` itself, unchanged, with a null
value slot. -/
theorem fault_pass_through (f : Callback) (ps : List JSVal) (e : JSVal)
    (he : e ≠ JSVal.vNull) :
    (f ps = CallOutcome.thr e → x f ps = JSVal.tuple e JSVal.vNull) ∧
    (f ps = CallOutcome.ret (JSVal.pending false e) →
      x f ps = JSVal.pending true (JSVal.tuple e JSVal.vNull)) := by
  constructor
  · intro h
    rw [x_thr f ps e h]
    unfold normalizeFault
    rw [if_neg he]
  · intro h
    rw [x_ret f ps (JSVal.pending false e) h]
    show JSVal.pending true (JSVal.tuple (normalizeFault e) JSVal.vNull) = _
    unfold normalizeFault
    rw [if_neg he]

/-- C4 witness: throwing a concrete non-null object passes through. -/
theorem fault_pass_through_witness :
    JSVal.obj 7 ≠ JSVal.vNull ∧
    x (fun _ => CallOutcome.thr (JSVal.obj 7)) [] =
      JSVal.tuple (JSVal.obj 7) JSVal.vNull :=
  ⟨by decide,
   (fault_pass_through (fun _ => CallOutcome.thr (JSVal.obj 7)) []
     (JSVal.obj 7) (by decide)).1 rfl⟩

/-- C5: for every callback and argument list, the callable returned by `w`
(wrap) produces exactly the result of `x` (execute) on those arguments; the
pending-detection is re-run inside the wrapped callable on every call. -/
theorem wrap_execute_equivalence (f : Callback) (ps : List JSVal) :
    w f ps = x f ps := rfl

/-- C6 counterexample: for an asynchronous callback resolving to 5, the
inner wrapped callable produces a pending tuple `P`; the doubly wrapped
callable does not yield the immediate tuple `(null, P)` — it takes the
asynchronous path and yields a pending computation resolving to
`(null, t)` where `t` is the settled inner tuple. -/
theorem double_wrap_async_cex :
    w (asCallback (w (fun _ =>
        CallOutcome.ret (JSVal.pending true (JSVal.vNum 5))))) [] ≠
      JSVal.tuple JSVal.vNull
        (w (fun _ => CallOutcome.ret (JSVal.pending true (JSVal.vNum 5))) []) ∧
    w (asCallback (w (fun _ =>
        CallOutcome.ret (JSVal.pending true (JSVal.vNum 5))))) [] =
      JSVal.pending true (JSVal.tuple JSVal.vNull
        (JSVal.tuple JSVal.vNull (JSVal.vNum 5))) := by
  exact ⟨by decide, rfl⟩

/-- C6 (amended): wrapping an already-wrapped callback composes
transparently with no flattening: when the inner wrapped callable returns
an immediate tuple, the outer layer takes its synchronous success path and
yields `(null, t)` with `t` the inner tuple; when the inner wrapped
callable returns a pending computation, the outer layer takes its
asynchronous success path and yields a pending computation resolving to
`(null, t)` with `t` the tuple the inner pending computation resolves
to. -/
theorem double_wrap_composition (f : Callback) (ps : List JSVal) :
    (∀ a b, w f ps = JSVal.tuple a b →
      w (asCallback (w f)) ps =
        JSVal.tuple JSVal.vNull (JSVal.tuple a b)) ∧
    (∀ t, w f ps = JSVal.pending true t →
      w (asCallback (w f)) ps =
        JSVal.pending true (JSVal.tuple JSVal.vNull t)) := by
  have hred : w (asCallback (w f)) ps =
      if truthy (w f ps) && hasCallableThen (w f ps) then thenCatch (w f ps)
      else JSVal.tuple JSVal.vNull (w f ps) := rfl
  constructor
  · intro a b h
    rw [hred, h]
    rfl
  · intro t h
    rw [hred, h]
    rfl

/-- C6 witness: doubly wrapping a concrete synchronous callback. -/
theorem double_wrap_composition_witness :
    w (fun _ => CallOutcome.ret (JSVal.vNum 1)) [] =
      JSVal.tuple JSVal.vNull (JSVal.vNum 1) ∧
    w (asCallback (w (fun _ => CallOutcome.ret (JSVal.vNum 1)))) [] =
      JSVal.tuple JSVal.vNull (JSVal.tuple JSVal.vNull (JSVal.vNum 1)) :=
  ⟨rfl,
   (double_wrap_composition (fun _ => CallOutcome.ret (JSVal.vNum 1)) []).1
     JSVal.vNull (JSVal.vNum 1) rfl⟩

/-- C7: a callback that raises synchronously always takes the synchronous
failure path: `x` (and the wrapped callable) returns the immediate tuple
`(normalized fault, null)` and never a pending computation, regardless of
the intended asynchrony; pending-detection only inspects values returned
by invocations that completed without raising. -/
theorem sync_raise_immediate (f : Callback) (ps : List JSVal) (e : JSVal)
    (h : f ps = CallOutcome.thr e) :
    x f ps = JSVal.tuple (normalizeFault e) JSVal.vNull ∧
    (∀ b t, x f ps ≠ JSVal.pending b t) ∧
    w f ps = JSVal.tuple (normalizeFault e) JSVal.vNull := by
  have hx : x f ps = JSVal.tuple (normalizeFault e) JSVal.vNull :=
    x_thr f ps e h
  refine ⟨hx, fun b t hc => ?_, hx⟩
  rw [hx] at hc
  exact JSVal.noConfusion hc

/-- C7 witness: a concrete synchronously raising callback. -/
theorem sync_raise_immediate_witness :
    (fun (_ : List JSVal) => CallOutcome.thr (JSVal.obj 3)) [] =
      CallOutcome.thr (JSVal.obj 3) ∧
    x (fun _ => CallOutcome.thr (JSVal.obj 3)) [] =
      JSVal.tuple (normalizeFault (JSVal.obj 3)) JSVal.vNull :=
  ⟨rfl,
   (sync_raise_immediate (fun _ => CallOutcome.thr (JSVal.obj 3)) []
     (JSVal.obj 3) rfl).1⟩

/-- C8: sync/async transparency — `x` on a callback synchronously
returning 5 yields the immediate tuple `(null, 5)`, while `x` on an
asynchronous callback resolving to 5 yields a pending computation
resolving to `(null, 5)`. -/
theorem sync_async_transparency :
    x (fun _ => CallOutcome.ret (JSVal.vNum 5)) [] =
      JSVal.tuple JSVal.vNull (JSVal.vNum 5) ∧
    x (fun _ => CallOutcome.ret (JSVal.pending true (JSVal.vNum 5))) [] =
      JSVal.pending true (JSVal.tuple JSVal.vNull (JSVal.vNum 5)) :=
  ⟨rfl, rfl⟩

/-- C9: the sentinel check is strict equality with null only — a callback
raising or rejecting undefined (or any falsy non-null value) gets that
value itself in the fault slot of the tuple produced by `x` or by a
wrapped callable; no `NullError` is substituted. -/
theorem undefined_not_sentinel (f : Callback) (ps : List JSVal) :
    (f ps = CallOutcome.thr JSVal.vUndefined →
      x f ps = JSVal.tuple JSVal.vUndefined JSVal.vNull ∧
      w f ps = JSVal.tuple JSVal.vUndefined JSVal.vNull) ∧
    (f ps = CallOutcome.ret (JSVal.pending false JSVal.vUndefined) →
      x f ps = JSVal.pending true
        (JSVal.tuple JSVal.vUndefined JSVal.vNull)) ∧
    (∀ e, e ≠ JSVal.vNull → f ps = CallOutcome.thr e →
      x f ps = JSVal.tuple e JSVal.vNull) := by
  refine ⟨fun h => ?_, fun h => ?_, fun e he h => ?_⟩
  · have hx : x f ps = JSVal.tuple JSVal.vUndefined JSVal.vNull := by
      rw [x_thr f ps JSVal.vUndefined h]; rfl
    exact ⟨hx, hx⟩
  · rw [x_ret f ps (JSVal.pending false JSVal.vUndefined) h]; rfl
  · rw [x_thr f ps e h]
    unfold normalizeFault
    rw [if_neg he]

/-- C9 witness: a concrete callback throwing undefined. -/
theorem undefined_not_sentinel_witness :
    x (fun _ => CallOutcome.thr JSVal.vUndefined) [] =
      JSVal.tuple JSVal.vUndefined JSVal.vNull :=
  ((undefined_not_sentinel (fun _ => CallOutcome.thr JSVal.vUndefined) []).1
    rfl).1

/-- C10: pending-detection fires exactly when the returned value is truthy
with a callable `then` — such a value (any well-behaved thenable, not only
a host promise) makes `x` return a pending computation — while every
falsy return value (null, undefined, false, 0, the empty string) takes the
immediate synchronous success path and lands directly in the value
slot. -/
theorem pending_detection (f : Callback) (ps : List JSVal) (r : JSVal)
    (h : f ps = CallOutcome.ret r) :
    ((truthy r && hasCallableThen r) = true ↔
      ∃ b t, x f ps = JSVal.pending b t) ∧
    (truthy r = false → x f ps = JSVal.tuple JSVal.vNull r) ∧
    truthy JSVal.vNull = false ∧
    truthy JSVal.vUndefined = false ∧
    truthy (JSVal.vBool false) = false ∧
    truthy (JSVal.vNum 0) = false ∧
    truthy (JSVal.vStr "") = false := by
  have hred := x_ret f ps r h
  refine ⟨⟨fun hT => ?_, fun hp => ?_⟩, fun hF => ?_, rfl, rfl, rfl, by decide,
    by decide⟩
  · rw [hred, if_pos hT]
    simp only [Bool.and_eq_true] at hT
    obtain ⟨ok, s, rfl⟩ := hasCallableThen_eq_true hT.2
    cases ok
    · exact ⟨true, JSVal.tuple (normalizeFault s) JSVal.vNull, rfl⟩
    · exact ⟨true, JSVal.tuple JSVal.vNull s, rfl⟩
  · obtain ⟨b, t, hp⟩ := hp
    by_contra hT
    rw [hred, if_neg hT] at hp
    exact JSVal.noConfusion hp
  · have hT : (truthy r && hasCallableThen r) = false := by
      rw [hF, Bool.false_and]
    rw [hred, hT, if_neg (by simp)]

/-- C10 witness: a concrete callback returning a resolving pending
computation is detected as pending. -/
theorem pending_detection_witness :
    (fun (_ : List JSVal) =>
        CallOutcome.ret (JSVal.pending true (JSVal.vNum 2))) [] =
      CallOutcome.ret (JSVal.pending true (JSVal.vNum 2)) ∧
    ((truthy (JSVal.pending true (JSVal.vNum 2)) &&
        hasCallableThen (JSVal.pending true (JSVal.vNum 2))) = true ↔
      ∃ b t, x (fun _ =>
          CallOutcome.ret (JSVal.pending true (JSVal.vNum 2))) [] =
        JSVal.pending b t) :=
  ⟨rfl,
   (pending_detection
     (fun _ => CallOutcome.ret (JSVal.pending true (JSVal.vNum 2))) []
     (JSVal.pending true (JSVal.vNum 2)) rfl).1⟩

end NtangledKit
